import Mathlib

/-!
# Platform dump extraction and retention (`opal_errd/extract_opal_dump.c`)

A shallow embedding of the dump extraction pipeline: the dump header parser
`dump_get_file_name`, the retention manager (`check_dup_dump_file`,
`remove_dump_files`), the dump processor `process_dump`, the scan-and-drain loop
`find_and_process_dumps` and the wait loop of `main`.

Conventions of the embedding.

* A byte is a `Fin 256`; a C string is the list of its bytes before the terminator.
* C `int` values are `Int`; conversions between `size_t` and `int` are written out
  with explicit moduli.
* The outcome of every system call that can fail is an input (a field of `Sys`,
  `PendingDump` or `Cycle`), so theorems quantify over all outcomes.
* A file of the output directory is identified by its name inside that directory.
-/

namespace OpalDump

/-! ## Bytes and C strings -/

abbrev Byte := Fin 256

/-- The bytes of an ASCII string literal, without terminator. -/
def ascii (s : String) : List Byte := s.toList.map (fun c => Fin.ofNat c.toNat)

/-- The C string stored in a buffer: the bytes before the first zero byte. -/
def cstr (b : List Byte) : List Byte := b.takeWhile (fun x => x ≠ 0)

/-- The C library `strncpy(dst, src, n)`: the `n` bytes written to `dst`, where `src` lists
the bytes readable from the source pointer. Bytes are copied up to and including the first
zero byte and the rest of the `n` bytes is filled with zeros. The result is `none` when the
copy would read past the end of `src`. -/
def strncpy : List Byte → Nat → Option (List Byte)
  | _, 0 => some []
  | [], _ + 1 => none
  | b :: rest, n + 1 =>
    if b = 0 then some (List.replicate (n + 1) 0)
    else (strncpy rest n).map (fun t => b :: t)

/-- The C library `strncmp(s1, s2, n)` on C strings given without their terminator (the end
of the list plays the terminator). -/
def strncmp : List Byte → List Byte → Nat → Int
  | _, _, 0 => 0
  | [], [], _ + 1 => 0
  | [], b :: _, _ + 1 => 0 - (b.val : Int)
  | a :: _, [], _ + 1 => (a.val : Int)
  | a :: s, b :: t, n + 1 =>
    if a = b then (if a = 0 then 0 else strncmp s t n) else (a.val : Int) - (b.val : Int)

/-! ## Dump header parser -/

def DUMP_HDR_PREFIX_OFFSET : Nat := 0x16
def DUMP_HDR_FNAME_OFFSET : Nat := 0x18
def DUMP_MAX_FNAME_LEN : Nat := 48
def DUMP_TYPE_LEN : Nat := 7

/-- The value of `sizeof(uint16_t)`. -/
def SIZEOF_UINT16 : Nat := 2

/-- The string literal "platform.dumpid.PARTIAL", without terminator. -/
def PARTIAL_NAME : List Byte :=
  [112, 108, 97, 116, 102, 111, 114, 109, 46, 100, 117, 109, 112, 105, 100, 46,
   80, 65, 82, 84, 73, 65, 76]

/-- Conversion of an `int` to `size_t` (64 bit), as done by the usual arithmetic
conversions when an `int` is compared with a `size_t`. -/
def int_to_size (i : Int) : Nat := (i % 2 ^ 64).toNat

/-- Conversion of a `size_t` to `int` (32 bit, two's complement), as done when a `size_t`
is passed for an `int` parameter. -/
def size_to_int (n : Nat) : Int :=
  if n % 2 ^ 32 < 2 ^ 31 then ((n % 2 ^ 32 : Nat) : Int)
  else ((n % 2 ^ 32 : Nat) : Int) - 2 ^ 32

/-- The load `be16toh(*(uint16_t *)(buf + off))`; `none` when it reads outside `buf`. -/
def be16_at (buf : List Byte) (off : Nat) : Option Nat :=
  match buf[off]?, buf[off + 1]? with
  | some hi, some lo => some (256 * hi.val + lo.val)
  | _, _ => none

/-- The function `dump_get_file_name(buf, bsize, dfile, dfile_size, prefix_size)`. The
arguments `buf` (the bytes readable at `buf`), `bsize`, `dfile_size` and the value held by
`*prefix_size` on entry are given; the result is the `dfile_size` bytes of `dfile` and
`*prefix_size` on return, or `none` when the function accesses memory outside `buf` or
`dfile`. The first comparison is between an `int` and a `size_t`, hence unsigned; the second
is between two `int`s. -/
def dump_get_file_name (buf : List Byte) (bsize : Int) (dfile_size : Nat)
    (prefix_size : Nat) : Option (List Byte × Nat) :=
  let prefix_opt : Option Nat :=
    if int_to_size bsize ≥ DUMP_HDR_PREFIX_OFFSET + SIZEOF_UINT16 then
      be16_at buf DUMP_HDR_PREFIX_OFFSET
    else some prefix_size
  let dfile_opt : Option (List Byte) :=
    if bsize ≥ ((DUMP_HDR_FNAME_OFFSET + DUMP_MAX_FNAME_LEN : Nat) : Int) then
      strncpy (buf.drop DUMP_HDR_FNAME_OFFSET) dfile_size
    else strncpy (PARTIAL_NAME ++ [0]) dfile_size
  match prefix_opt, dfile_opt with
  | some p, some dfile =>
    if dfile_size = 0 then none else some (dfile.set (dfile_size - 1) 0, p)
  | _, _ => none

def PATH_MAX : Nat := 4096

/-- A file of the output directory: its name inside the directory and its `st_mtime`. -/
structure File where
  name : List Byte
  mtime : Int
deriving DecidableEq, Repr

/-- Whether a file of the given name is in the directory. -/
def exists_file (name : List Byte) (dir : List File) : Bool :=
  dir.any (fun f => decide (f.name = name))

/-- The directory after an `unlink` of `name` that succeeded. -/
def unlink (name : List Byte) (dir : List File) : List File :=
  dir.filter (fun f => decide (f.name ≠ name))

/-- The directory after a `rename(src, dst)` that succeeded, for `src` different from `dst`:
a file already named `dst` is replaced. -/
def rename (src dst : List Byte) (dir : List File) : List File :=
  (unlink dst dir).map (fun f => if f.name = src then { f with name := dst } else f)

/-- The test `d_name[0] == '.'`. -/
def hidden (d_name : List Byte) : Bool := decide (d_name.head? = some 46)

/-- The options of the command line (the globals `opt_ack_dump`, `opt_wait`, `opt_max_dump`)
and the length of the path `opt_output_dir`. -/
structure Config where
  opt_ack_dump : Bool
  opt_wait : Bool
  opt_max_dump : Int
  output_dir_len : Nat

/-- The outcomes of the system calls made by one call of `process_dump`, in the order of
the source. A field `*_ok` tells whether the call succeeds when nothing in the modelled
state makes it fail; `read k` is the result of the call number `k` of `read` (`none` for
-1); `scandir dir` is the listing `scandir(opt_output_dir, .., timesort)` returns on the
directory `dir` (`none` for a negative result); `unlink_ok name` is the outcome of the
`unlink` of `name` in the retention walk; `now` is the modification time the written file
gets. -/
structure Sys where
  stat_ok : Bool
  malloc_ok : Bool
  open_in_ok : Bool
  read : Nat → Option Nat
  access_ok : Bool
  unlink_dup_ok : Bool
  scandir : List File → Option (List File)
  unlink_ok : List Byte → Bool
  open_out_ok : Bool
  now : Int
  write_ok : Bool
  unlink_tmp_ok : Bool
  fsync_ok : Bool
  rename_ok : Bool
  open_dir_ok : Bool
  fsync_dir_ok : Bool

/-! ## Retention manager -/

/-- The function `check_dup_dump_file(dumpname)`: the output directory on return. `access`
fails when no file of that name exists, and may fail on an existing one. -/
def check_dup_dump_file (cfg : Config) (sys : Sys) (dumpname : List Byte)
    (dir : List File) : List File :=
  if cfg.output_dir_len + 1 + dumpname.length ≥ PATH_MAX then dir
  else if ¬ (exists_file dumpname dir = true ∧ sys.access_ok = true) then dir
  else if sys.unlink_dup_ok then unlink dumpname dir
  else dir

/-- The `for` loop of `remove_dump_files` over the entries of `namelist` still to visit,
with the running `count` and the output directory. The number of entries is an `int`
returned by `scandir`, so `count` does not overflow. The path "<output_dir>/<d_name>" of an
entry is taken to fit `PATH_MAX`, so that `snprintf` does not cut it and `unlink(dump_path)`
removes the entry visited; the theorems on which entries are removed assume it
(`paths_fit`). -/
def remove_dump_files_loop (cfg : Config) (sys : Sys) (dumpname : List Byte) :
    List File → Int → List File → List File
  | [], _, dir => dir
  | dirent :: rest, count, dir =>
    if hidden dirent.name = true ∨ strncmp dumpname dirent.name DUMP_TYPE_LEN ≠ 0 then
      remove_dump_files_loop cfg sys dumpname rest count dir
    else
      let count := count + 1
      if count < cfg.opt_max_dump then
        remove_dump_files_loop cfg sys dumpname rest count dir
      else if sys.unlink_ok dirent.name then
        remove_dump_files_loop cfg sys dumpname rest count (unlink dirent.name dir)
      else
        remove_dump_files_loop cfg sys dumpname rest count dir

/-- The function `remove_dump_files(dumpname)`: the output directory on return. -/
def remove_dump_files (cfg : Config) (sys : Sys) (dumpname : List Byte)
    (dir : List File) : List File :=
  let dir := check_dup_dump_file cfg sys dumpname dir
  match sys.scandir dir with
  | none => dir
  | some namelist => remove_dump_files_loop cfg sys dumpname namelist 0 dir

/-! ## Dump processor -/

/-- How a call of `process_dump` ends: `ok` for `ret = 0`, otherwise the step that failed
(each is logged by the source, `open_out_failed` with the `errno` being `EEXIST` or not).
`fault` stands for an access outside the payload buffer. -/
inductive Outcome
  | ok
  | stat_failed
  | malloc_failed
  | open_in_failed
  | read_failed
  | open_out_failed (eexist : Bool)
  | write_failed
  | fsync_failed
  | rename_failed
  | open_dir_failed
  | fault
deriving DecidableEq, Repr

/-- The value returned by `process_dump`. -/
def Outcome.ret : Outcome → Int
  | Outcome.ok => 0
  | _ => -1

/-- The `do ... while (sz != bufsz)` loop of `process_dump`. `k` is the number of calls of
`read` made so far and `sz` the bytes read so far; a call of `read` returns at most the
count it is given. The result is `none` when the loop is still running after `fuel`
iterations, `some none` when it is left by a read error and `some (some sz)` when it is
left with `sz = bufsz`. -/
def read_loop (read : Nat → Option Nat) (bufsz : Nat) : Nat → Nat → Nat → Option (Option Nat)
  | 0, _, _ => none
  | fuel + 1, k, sz =>
    match read k with
    | none => some none
    | some readsz =>
      let sz := sz + min readsz (bufsz - sz)
      if sz ≠ bufsz then read_loop read bufsz fuel (k + 1) sz else some (some sz)

/-- The string literal ".tmp". -/
def TMP_SUFFIX : List Byte := [46, 116, 109, 112]

/-- The part of `process_dump` after `dump_get_file_name` returned the name `outfname`
(from the two `snprintf` calls to the end): the outcome and the output directory on return.
`dump_path` is the name of the temporary file. The paths are taken to fit `PATH_MAX`, so
`snprintf` does not cut them, and `outfname` to name an entry of the output directory, so
the temporary and the final file are files of that directory; the theorems on the files
written assume both (`paths_fit`, `plain_name`). A failure of the `fsync` of the directory
is logged by the source and changes neither the result nor the directory, so `fsync_dir_ok`
is not read. -/
def write_dump (cfg : Config) (sys : Sys) (outfname : List Byte) (dir : List File) :
    Outcome × List File :=
  let dump_path := outfname ++ TMP_SUFFIX
  let dir := remove_dump_files cfg sys outfname dir
  if exists_file dump_path dir then (Outcome.open_out_failed true, dir)
  else if ¬ sys.open_out_ok then (Outcome.open_out_failed false, dir)
  else
    let dir := dir ++ [{ name := dump_path, mtime := sys.now }]
    if ¬ sys.write_ok then
      (Outcome.write_failed, if sys.unlink_tmp_ok then unlink dump_path dir else dir)
    else if ¬ sys.fsync_ok then (Outcome.fsync_failed, dir)
    else if ¬ sys.rename_ok then (Outcome.rename_failed, dir)
    else
      let dir := rename dump_path outfname dir
      if ¬ sys.open_dir_ok then (Outcome.open_dir_failed, dir)
      else (Outcome.ok, dir)

/-- The name `process_dump` gives the dump whose payload is `buf`: the string left in
`outfname` by `dump_get_file_name(buf, bufsz, outfname, DUMP_MAX_FNAME_LEN, &prefix_size)`.
`prefix_size` is not initialised by the source and not used; it is given as 0. -/
def dump_name (buf : List Byte) : Option (List Byte) :=
  (dump_get_file_name buf (size_to_int buf.length) DUMP_MAX_FNAME_LEN 0).map
    (fun r => cstr r.1)

/-- The part of `process_dump` after the payload is read into `buf` (from the call of
`dump_get_file_name` to the end). -/
def store_dump (cfg : Config) (sys : Sys) (buf : List Byte) (dir : List File) :
    Outcome × List File :=
  match dump_name buf with
  | none => (Outcome.fault, dir)
  | some outfname => write_dump cfg sys outfname dir

/-- The function `process_dump(dump_dir_path, output_dir)` on a dump whose `dump` file
holds `payload` (`st_size` is its length): the outcome and the output directory on return,
or `none` when the read loop is still running after `fuel` iterations. -/
def process_dump (cfg : Config) (sys : Sys) (payload : List Byte) (fuel : Nat)
    (dir : List File) : Option (Outcome × List File) :=
  if ¬ sys.stat_ok then some (Outcome.stat_failed, dir)
  else if ¬ sys.malloc_ok then some (Outcome.malloc_failed, dir)
  else if ¬ sys.open_in_ok then some (Outcome.open_in_failed, dir)
  else
    match read_loop sys.read payload.length fuel 0 0 with
    | none => none
    | some none => some (Outcome.read_failed, dir)
    | some (some _) => some (store_dump cfg sys payload dir)

/-! ## Scan-and-drain loop -/

/-- An entry of the listing of the dump root, with what the calls made on it return:
whether `d_type == DT_DIR`, the result of the fallback `stat` (`none` for an error,
`some b` for `S_ISDIR` being `b`), the payload and system call outcomes for
`process_dump`, and the outcomes of the `open` and `write` of `ack_dump`. -/
structure PendingDump where
  d_name : List Byte
  d_type_is_dir : Bool
  stat : Option Bool
  payload : List Byte
  sys : Sys
  ack_open_ok : Bool
  ack_write_ok : Bool

/-- What the pipeline does outside the output directory, in order. -/
inductive Event
  | process (d_name : List Byte) (rc : Int)
  | ack_open (d_name : List Byte) (ok : Bool)
  | ack_write (d_name : List Byte) (ok : Bool)
  | drain (rc : Int)
  | open_root (ok : Bool)
  | select (rc : Int)
deriving DecidableEq, Repr

/-- The output directory and the events so far. -/
structure World where
  outdir : List File
  trace : List Event
deriving DecidableEq, Repr

/-- The function `ack_dump(dump_dir_path)`: the events it adds. An event records the call
(`open` of the path built from `dump_dir_path` and "/acknowledge", `write` of "ack\n")
under the name of the entry and with its outcome; the calls made do not depend on the
path. -/
def ack_dump (d : PendingDump) (trace : List Event) : List Event :=
  if ¬ d.ack_open_ok then trace ++ [Event.ack_open d.d_name false]
  else trace ++ [Event.ack_open d.d_name true, Event.ack_write d.d_name d.ack_write_ok]

/-- The two statements of `find_and_process_dumps` that fold the result `rc` of one
`process_dump` into `retval`. -/
def update_retval (retval rc : Int) : Int :=
  let retval := if rc ≠ 0 ∧ retval = 0 then -1 else retval
  if rc = 0 ∧ retval ≥ 0 then retval + 1 else retval

/-- The `for` loop of `find_and_process_dumps` over the entries still to visit. -/
def find_and_process_dumps_loop (cfg : Config) (fuel : Nat) :
    List PendingDump → Int → World → Option (Int × World)
  | [], retval, w => some (retval, w)
  | d :: rest, retval, w =>
    if hidden d.d_name then find_and_process_dumps_loop cfg fuel rest retval w
    else if d.d_type_is_dir = false ∧ d.stat = none then
      find_and_process_dumps_loop cfg fuel rest retval w
    else
      let is_dir : Bool := d.d_type_is_dir || decide (d.stat = some true)
      if is_dir then
        match process_dump cfg d.sys d.payload fuel w.outdir with
        | none => none
        | some (o, outdir) =>
          let rc := o.ret
          let retval := update_retval retval rc
          let trace := w.trace ++ [Event.process d.d_name rc]
          let trace := if cfg.opt_ack_dump then ack_dump d trace else trace
          find_and_process_dumps_loop cfg fuel rest retval { outdir := outdir, trace := trace }
      else find_and_process_dumps_loop cfg fuel rest retval w

/-- The function `find_and_process_dumps(opal_dump_dir, output_dir)`; `listing` is what
`scandir(opal_dump_dir, .., alphasort)` returns (`none` for a negative result). -/
def find_and_process_dumps (cfg : Config) (fuel : Nat) (listing : Option (List PendingDump))
    (w : World) : Option (Int × World) :=
  match listing with
  | none => some (-1, w)
  | some namelist => find_and_process_dumps_loop cfg fuel namelist 0 w

/-! ## Main and the wait loop -/

def EXIT_FAILURE : Int := 1

/-- The end of `main` from the label `err_out`: the exit status for the final `rc`. -/
def exit_status (rc : Int) : Int := if rc < 0 then EXIT_FAILURE else 0

/-- The result of `access(opt_output_dir, W_OK)`: success, failure with `ENOENT`, failure
with another `errno`. -/
inductive AccessOut
  | ok
  | enoent
  | other
deriving DecidableEq, Repr

/-- The outcomes of the set-up calls of `main`. -/
structure Setup where
  access_sysfs_ok : Bool
  access_out : AccessOut
  mkdir_ok : Bool

/-- What one pass through the label `start` of `main` meets: the listing of the dump root,
the outcome of the `open` of the dump root and the value returned by `select`. -/
structure Cycle where
  listing : Option (List PendingDump)
  open_root_ok : Bool
  select_rc : Int

/-- The loop of `main` at the label `start`, over the passes still to come: the exit status
and the world at exit, or `none` when the process has not exited after these passes (or a
read loop is still running after `fuel` iterations). -/
def main_loop (cfg : Config) (fuel : Nat) : List Cycle → World → Option (Int × World)
  | [], _ => none
  | c :: rest, w =>
    match find_and_process_dumps cfg fuel c.listing w with
    | none => none
    | some (rc, w) =>
      let w : World := { w with trace := w.trace ++ [Event.drain rc] }
      if rc = 0 ∧ cfg.opt_wait = true then
        if ¬ c.open_root_ok then
          some (exit_status (-1), { w with trace := w.trace ++ [Event.open_root false] })
        else
          let rc := c.select_rc
          let w : World :=
            { w with trace := w.trace ++ [Event.open_root true, Event.select rc] }
          if rc = -1 then some (exit_status rc, w)
          else main_loop cfg fuel rest w
      else some (exit_status rc, w)

/-- The function `main` after the options are parsed. -/
def main (cfg : Config) (s : Setup) (fuel : Nat) (cycles : List Cycle) (w : World) :
    Option (Int × World) :=
  if ¬ s.access_sysfs_ok then some (exit_status (-1), w)
  else
    match s.access_out with
    | AccessOut.ok => main_loop cfg fuel cycles w
    | AccessOut.enoent =>
      if ¬ s.mkdir_ok then some (exit_status (-1), w) else main_loop cfg fuel cycles w
    | AccessOut.other => some (exit_status (-1), w)

/-! ## Retention: the notions of the claims -/

/-- The type code of a dump name: its first `DUMP_TYPE_LEN` characters. -/
def type_code (dumpname : List Byte) : List Byte := dumpname.take DUMP_TYPE_LEN

/-- Whether the string `s` starts with `p`. -/
def starts_with (p s : List Byte) : Bool := decide (s.take p.length = p)

/-- The files of the directory whose name starts with the type code of `dumpname`. -/
def files_of_type (dumpname : List Byte) (dir : List File) : List File :=
  dir.filter (fun f => starts_with (type_code dumpname) f.name)

/-- The test of the retention walk: the entry is not hidden and `strncmp` finds it equal to
`dumpname` over `DUMP_TYPE_LEN` bytes. -/
def walk_match (dumpname : List Byte) (f : File) : Bool :=
  !hidden f.name && decide (strncmp dumpname f.name DUMP_TYPE_LEN = 0)

/-- The files of the directory that the retention walk counts for `dumpname`. -/
def files_counted (dumpname : List Byte) (dir : List File) : List File :=
  dir.filter (walk_match dumpname)

/-! ## Concrete inputs -/

/-- Insertion of a file into a listing ordered by modification time, newest first. -/
def insert_newest (f : File) : List File → List File
  | [] => [f]
  | g :: rest => if g.mtime ≤ f.mtime then f :: g :: rest else g :: insert_newest f rest

/-- A `scandir` that succeeds and lists the directory newest first. -/
def scandir_newest_first (dir : List File) : Option (List File) :=
  some (dir.foldr insert_newest [])

/-- System call outcomes where every call succeeds, `read` fills the buffer at once, the
listing is ordered newest first and the written file gets the modification time `now`. -/
def sys_ok (now : Int) : Sys :=
  { stat_ok := true, malloc_ok := true, open_in_ok := true, read := fun _ => some 4096,
    access_ok := true, unlink_dup_ok := true, scandir := scandir_newest_first,
    unlink_ok := fun _ => true, open_out_ok := true, now := now, write_ok := true,
    unlink_tmp_ok := true, fsync_ok := true, rename_ok := true, open_dir_ok := true,
    fsync_dir_ok := true }

/-- A payload of 0x18 + 48 bytes whose name field holds `name` and zero padding. -/
def payload_named (name : List Byte) : List Byte :=
  List.replicate 0x18 0 ++ name ++ List.replicate (48 - name.length) 0

/-- The default options with the retention cap `max`. -/
def cfg_max (max : Int) : Config :=
  { opt_ack_dump := true, opt_wait := false, opt_max_dump := max, output_dir_len := 13 }

/-- The file `f` is among the `n` most recently modified of `files`: it is one of them and
fewer than `n` of them are strictly newer. -/
def among_newest (n : Int) (files : List File) (f : File) : Prop :=
  f ∈ files ∧ ((files.filter (fun g => decide (f.mtime < g.mtime))).length : Int) < n

/-- The dump name "PLATFRM." followed by the digit `i`. -/
def platfrm (i : Nat) : List Byte := ascii "PLATFRM." ++ [Fin.ofNat (48 + i)]

/-- An output directory holding the dumps "PLATFRM.1" to "PLATFRM.4", written at the times
1 to 4. -/
def platfrm_dir : List File :=
  [⟨platfrm 1, 1⟩, ⟨platfrm 2, 2⟩, ⟨platfrm 3, 3⟩, ⟨platfrm 4, 4⟩]

/-- An output directory holding two hidden files of the type ".dump01". -/
def hidden_dir : List File := [⟨ascii ".dump01.a", 1⟩, ⟨ascii ".dump01.b", 2⟩]

/-- A dump directory of the dump root, reported as a directory by the listing, whose payload
names the dump `name`; every system call made on it succeeds, at the time `now`. -/
def pending (d_name name : List Byte) (now : Int) : PendingDump :=
  { d_name := d_name, d_type_is_dir := true, stat := some true,
    payload := payload_named name, sys := sys_ok now,
    ack_open_ok := true, ack_write_ok := true }

/-- The five dump directories 0x1 to 0x5 of the dump root, holding the dumps "PLATFRM.1" to
"PLATFRM.5" and processed at the times 1 to 5. -/
def five_dumps : List PendingDump :=
  [pending (ascii "0x1") (platfrm 1) 1, pending (ascii "0x2") (platfrm 2) 2,
   pending (ascii "0x3") (platfrm 3) 3, pending (ascii "0x4") (platfrm 4) 4,
   pending (ascii "0x5") (platfrm 5) 5]

/-- System call outcomes where the first `read` of the dump fails and every other call
succeeds. -/
def sys_read_fails (now : Int) : Sys := { sys_ok now with read := fun _ => none }

/-- A dump directory of the dump root whose `dump` file cannot be read. -/
def pending_unreadable (d_name : List Byte) : PendingDump :=
  { d_name := d_name, d_type_is_dir := true, stat := some true,
    payload := payload_named (platfrm 0), sys := sys_read_fails 0,
    ack_open_ok := true, ack_write_ok := true }

/-- Set-up calls that all succeed. -/
def setup_ok : Setup := { access_sysfs_ok := true, access_out := AccessOut.ok, mkdir_ok := true }

/-- The default options with the wait toggle enabled. -/
def cfg_wait : Config := { cfg_max 4 with opt_wait := true }

/-- An empty output directory and no event. -/
def world0 : World := { outdir := [], trace := [] }

/-! ## Acknowledgment: the notions of the claims -/

/-- The value of a signed 64-bit (`time_t`) result, two's complement. -/
def wrap_long (x : Int) : Int :=
  if x % 2 ^ 64 < 2 ^ 63 then x % 2 ^ 64 else x % 2 ^ 64 - 2 ^ 64

/-- Conversion of a `time_t` value to `int` (32 bit, two's complement), as done by a
`return` of a `time_t` expression from a function returning `int`. -/
def long_to_int (x : Int) : Int :=
  if x % 2 ^ 32 < 2 ^ 31 then x % 2 ^ 32 else x % 2 ^ 32 - 2 ^ 32

/-- The function `timesort(file1, file2)` on the names of the two entries; `stat name` is
what `stat` gives for the path of the entry in the output directory: `none` for a failure
(`rc` is -1), `some st_mtime` otherwise. -/
def timesort (stat : List Byte → Option Int) (file1 file2 : List Byte) : Int :=
  match stat file1 with
  | none => -1
  | some mtime1 =>
    match stat file2 with
    | none => -1
    | some mtime2 => long_to_int (wrap_long (mtime2 - mtime1))

/-- A `stat` that succeeds on the entries "a" and "b", with the modification times `m1` and
`m2`. -/
def stat_two (m1 m2 : Int) (name : List Byte) : Option Int :=
  if name = ascii "a" then some m1 else if name = ascii "b" then some m2 else none

/-- System call outcomes where every call succeeds and every `read` of the dump returns 0
(end of file). -/
def sys_eof (now : Int) : Sys := { sys_ok now with read := fun _ => some 0 }

/-- The dump name is the name of an entry of the output directory: it is not empty, is not
"." or "..", and holds no '/'. Then "<output_dir>/<name>" and "<output_dir>/<name>.tmp"
are files of the output directory itself. -/
def plain_name (name : List Byte) : Prop :=
  name ≠ [] ∧ name ≠ [46] ∧ name ≠ [46, 46] ∧ (47 : Byte) ∉ name

/-- No path that `process_dump` builds with `snprintf(.., sizeof(dump_path), ..)` for the
dump name `name` on the output directory `dir` is cut: the temporary path
"<output_dir>/<name>.tmp" (and so the final path) and the path "<output_dir>/<d_name>" of
every entry are shorter than `PATH_MAX`. -/
def paths_fit (cfg : Config) (name : List Byte) (dir : List File) : Prop :=
  cfg.output_dir_len + 1 + name.length + TMP_SUFFIX.length < PATH_MAX
    ∧ ∀ f ∈ dir, cfg.output_dir_len + 1 + f.name.length < PATH_MAX

/-! ## Theorems: dump header parser -/

theorem strncpy_length : ∀ (src : List Byte) (n : Nat) (r : List Byte),
    strncpy src n = some r → r.length = n
  | _, 0, r, h => by simp [strncpy] at h; simp [← h]
  | [], _ + 1, r, h => by simp [strncpy] at h
  | b :: rest, n + 1, r, h => by
    unfold strncpy at h
    split at h
    · simp at h; simp [← h]
    · cases hr : strncpy rest n with
      | none => simp [hr] at h
      | some t =>
        simp [hr] at h
        have := strncpy_length rest n t hr
        simp [← h, this]

theorem strncpy_isSome : ∀ (src : List Byte) (n : Nat), n ≤ src.length →
    ∃ r, strncpy src n = some r
  | _, 0, _ => ⟨[], by simp [strncpy]⟩
  | [], _ + 1, h => by simp at h
  | b :: rest, n + 1, h => by
    unfold strncpy
    split
    · exact ⟨_, rfl⟩
    · obtain ⟨t, ht⟩ := strncpy_isSome rest n (by simpa using h)
      exact ⟨b :: t, by simp [ht]⟩

theorem cstr_cons_zero (l : List Byte) : cstr (0 :: l) = [] := by
  simp [cstr]

theorem cstr_cons_ne (b : Byte) (l : List Byte) (hb : b ≠ 0) : cstr (b :: l) = b :: cstr l := by
  simp [cstr, List.takeWhile_cons, hb]

theorem cstr_nil : cstr [] = [] := rfl

theorem cstr_replicate_zero (k : Nat) : cstr (List.replicate k (0 : Byte)) = [] := by
  cases k
  · rfl
  · simp [List.replicate, cstr_cons_zero]

theorem strncpy_cstr_set : ∀ (src : List Byte) (n : Nat) (r : List Byte),
    strncpy src (n + 1) = some r →
    cstr (r.set n 0) = (cstr (src.take (n + 1))).take n
  | [], _, r, h => by simp [strncpy] at h
  | b :: rest, n, r, h => by
    unfold strncpy at h
    split at h
    · rename_i hb
      simp at h
      subst h
      have : (List.replicate (n + 1) (0 : Byte)).set n 0 = List.replicate (n + 1) 0 := by
        apply List.ext_getElem
        · simp
        · intro i h1 h2
          simp [List.getElem_set]
      rw [this, cstr_replicate_zero, hb]
      simp [cstr_cons_zero]
    · rename_i hb
      cases hr : strncpy rest n with
      | none => simp [hr] at h
      | some t =>
        simp [hr] at h
        subst h
        cases n with
        | zero => simp [cstr_cons_zero]
        | succ k =>
          have ih := strncpy_cstr_set rest k t hr
          simp only [List.set_cons_succ, List.take_succ_cons]
          rw [cstr_cons_ne _ _ hb, cstr_cons_ne _ _ hb, ih, List.take_succ_cons]

theorem be16_at_eq (buf : List Byte) (off : Nat) (h : off + 2 ≤ buf.length) :
    be16_at buf off = some (256 * (buf.getD off 0).val + (buf.getD (off + 1) 0).val) := by
  unfold be16_at
  have h0 : off < buf.length := by omega
  have h1 : off + 1 < buf.length := by omega
  simp [List.getElem?_eq_getElem h0, List.getElem?_eq_getElem h1, List.getD_eq_getElem _ _ h0,
    List.getD_eq_getElem _ _ h1]

theorem strncpy_partial_name :
    strncpy (PARTIAL_NAME ++ [0]) 48 = some (PARTIAL_NAME ++ List.replicate 25 0) := by
  decide

theorem size_to_int_ge (n : Nat) (k : Nat) (hk : k < 2 ^ 31)
    (h : (k : Int) ≤ size_to_int n) : k ≤ n := by
  unfold size_to_int at h
  split at h <;> omega

theorem int_to_size_size_to_int_ge (n : Nat) (k : Nat) (hk : k < 2 ^ 31)
    (h : k ≤ int_to_size (size_to_int n)) : k ≤ n := by
  unfold int_to_size size_to_int at h
  split at h <;> omega

theorem cstr_length_pos_iff (l : List Byte) : 1 ≤ (cstr l).length ↔ l.getD 0 0 ≠ 0 := by
  cases l with
  | nil => simp [cstr_nil]
  | cons b t =>
    by_cases hb : b = 0
    · subst hb; simp [cstr_cons_zero]
    · simp [cstr_cons_ne _ _ hb, hb]

/-- The parser on a size argument that does not exceed the buffer where it is tested. -/
theorem dump_get_file_name_of_bounds (buf : List Byte) (bsize : Int) (d : Nat)
    (h1 : 24 ≤ int_to_size bsize → 24 ≤ buf.length)
    (h2 : 72 ≤ bsize → 72 ≤ buf.length) :
    ∃ dfile p,
      dump_get_file_name buf bsize DUMP_MAX_FNAME_LEN d = some (dfile, p)
      ∧ dfile.length = 48 ∧ dfile[47]? = some 0 ∧ (cstr dfile).length ≤ 47
      ∧ (1 ≤ (cstr dfile).length ↔ (bsize < 72 ∨ buf.getD 24 0 ≠ 0))
      ∧ cstr dfile = (if 72 ≤ bsize then (cstr ((buf.drop 24).take 48)).take 47
          else PARTIAL_NAME) := by
  have hp : ∃ p, (if int_to_size bsize ≥ DUMP_HDR_PREFIX_OFFSET + SIZEOF_UINT16
      then be16_at buf DUMP_HDR_PREFIX_OFFSET else some d) = some p := by
    split
    · rename_i h
      exact ⟨_, be16_at_eq buf 0x16 (h1 h)⟩
    · exact ⟨d, rfl⟩
  obtain ⟨p, hp⟩ := hp
  unfold dump_get_file_name
  simp only [hp]
  have e72 : ((DUMP_HDR_FNAME_OFFSET + DUMP_MAX_FNAME_LEN : Nat) : Int) = 72 := by decide
  rw [e72]
  by_cases h3 : bsize ≥ 72
  · have hn : 72 ≤ buf.length := h2 h3
    obtain ⟨r, hr⟩ := strncpy_isSome (buf.drop 24) 48 (by simp; omega)
    have hl := strncpy_length _ _ _ hr
    have hc := strncpy_cstr_set _ 47 _ hr
    have h3' : (72 : Int) ≤ bsize := h3
    refine ⟨r.set 47 0, p, ?_, by simp [hl], ?_, ?_, ?_, ?_⟩
    · simp [h3, DUMP_HDR_FNAME_OFFSET, DUMP_MAX_FNAME_LEN, hr]
    · simp [List.getElem?_set, hl]
    · rw [hc]; simp
    · rw [hc]
      have h2' : ¬ bsize < 72 := by omega
      have : (List.take 47 (cstr (List.take (47 + 1) (List.drop 24 buf)))).length
          = min 47 (cstr (List.take 48 (List.drop 24 buf))).length := by simp
      have h5 := cstr_length_pos_iff (List.take 48 (List.drop 24 buf))
      have h6 : (List.take 48 (List.drop 24 buf)).getD 0 0 = buf.getD 24 0 := by
        simp [List.getD_eq_getElem?_getD, List.getElem?_take, List.getElem?_drop]
      rw [h6] at h5
      simp only [h2', false_or]
      rw [← h5, this]
      omega
    · rw [hc, if_pos h3']
  · have h2' : bsize < 72 := by omega
    have h3' : ¬ (72 : Int) ≤ bsize := h3
    refine ⟨(PARTIAL_NAME ++ List.replicate 25 0).set 47 0, p, ?_, by decide, by decide,
      by decide, ?_, ?_⟩
    · simp [h3, DUMP_MAX_FNAME_LEN, strncpy_partial_name]
    · simp only [h2', true_or, iff_true]; decide
    · rw [if_neg h3']; decide

/-- In `process_dump` the parser is given the payload and its size converted to `int`: it
accesses no memory outside the payload, whatever the size. -/
theorem dump_get_file_name_process (buf : List Byte) (d : Nat) :
    ∃ dfile p,
      dump_get_file_name buf (size_to_int buf.length) DUMP_MAX_FNAME_LEN d = some (dfile, p)
      ∧ dfile.length = 48 ∧ dfile[47]? = some 0 ∧ (cstr dfile).length ≤ 47
      ∧ (1 ≤ (cstr dfile).length ↔ (size_to_int buf.length < 72 ∨ buf.getD 24 0 ≠ 0))
      ∧ cstr dfile = (if 72 ≤ size_to_int buf.length then
            (cstr ((buf.drop 24).take 48)).take 47
          else PARTIAL_NAME) := by
  have h24 : (24 : Nat) < 2 ^ 31 := by norm_num
  have h72 : (72 : Nat) < 2 ^ 31 := by norm_num
  have h1 := int_to_size_size_to_int_ge buf.length 24 h24
  have h2 := size_to_int_ge buf.length 72 h72
  generalize size_to_int buf.length = bsize at h1 h2
  exact dump_get_file_name_of_bounds buf bsize d h1 h2

/-- C2 (as stated, refuted): it is not the case that for every payload buffer the name
produced by `dump_get_file_name` with capacity 48 holds a zero byte within its first 48
bytes and has string length at least 1. A payload of 72 zero bytes gives the empty
name. -/
theorem dump_name_empty_counterexample :
    ¬ (∀ (buf : List Byte) (d : Nat), ∃ dfile p,
        dump_get_file_name buf (size_to_int buf.length) DUMP_MAX_FNAME_LEN d = some (dfile, p)
        ∧ (0 : Byte) ∈ dfile.take 48 ∧ 1 ≤ (cstr dfile).length) := by
  intro h
  obtain ⟨dfile, p, h1, _, h3⟩ := h (List.replicate 72 0) 0
  have h4 : dump_get_file_name (List.replicate 72 0)
      (size_to_int (List.replicate 72 (0 : Byte)).length)
      DUMP_MAX_FNAME_LEN 0 = some (List.replicate 48 0, 0) := by decide
  rw [h4] at h1
  simp only [Option.some.injEq, Prod.mk.injEq] at h1
  rw [← h1.1, cstr_replicate_zero] at h3
  simp at h3

/-- C2 (amended): for every payload buffer of every length, the name produced by
`dump_get_file_name` with capacity 48, called as in `process_dump`, is terminated: the 48
bytes of `dfile` end in a zero byte and the string is at most 47 bytes long. It is not
empty exactly when the size passed is below 0x18 + 48 (the placeholder is used) or the
first byte of the name field is not zero. -/
theorem dump_name_terminated (buf : List Byte) (d : Nat) :
    ∃ dfile p,
      dump_get_file_name buf (size_to_int buf.length) DUMP_MAX_FNAME_LEN d = some (dfile, p)
      ∧ dfile.length = 48 ∧ dfile[47]? = some 0 ∧ (cstr dfile).length ≤ 47
      ∧ (1 ≤ (cstr dfile).length ↔ (size_to_int buf.length < 72 ∨ buf.getD 24 0 ≠ 0)) := by
  obtain ⟨dfile, p, h1, h2, h3, h4, h5, _⟩ := dump_get_file_name_process buf d
  exact ⟨dfile, p, h1, h2, h3, h4, h5⟩

/-! ## Theorems: retention manager -/

theorem walk_match_eq_false_iff (dumpname : List Byte) (f : File) :
    walk_match dumpname f = false ↔
      (hidden f.name = true ∨ strncmp dumpname f.name DUMP_TYPE_LEN ≠ 0) := by
  unfold walk_match
  cases hidden f.name <;> simp

/-- With every `unlink` succeeding, the retention walk removes exactly the files named like
the counted entries from position `opt_max_dump - 1 - count` on. -/
theorem remove_dump_files_loop_eq (cfg : Config) (sys : Sys) (dumpname : List Byte)
    (hunl : ∀ n, sys.unlink_ok n = true) :
    ∀ (namelist : List File) (count : Int) (dir : List File),
      remove_dump_files_loop cfg sys dumpname namelist count dir
        = dir.filter (fun f => decide (f.name ∉
            (((files_counted dumpname namelist).drop
              (cfg.opt_max_dump - 1 - count).toNat).map File.name)))
  | [], count, dir => by simp [remove_dump_files_loop, files_counted]
  | e :: rest, count, dir => by
    unfold remove_dump_files_loop
    by_cases hP : walk_match dumpname e = true
    · have hc : ¬ (hidden e.name = true ∨ strncmp dumpname e.name DUMP_TYPE_LEN ≠ 0) := by
        intro h
        rw [← walk_match_eq_false_iff] at h
        rw [h] at hP
        exact Bool.noConfusion hP
      have hf : files_counted dumpname (e :: rest) = e :: files_counted dumpname rest := by
        simp [files_counted, List.filter_cons, hP]
      rw [if_neg hc, hf]
      by_cases hlt : count + 1 < cfg.opt_max_dump
      · simp only [hlt, if_true]
        rw [remove_dump_files_loop_eq cfg sys dumpname hunl rest (count + 1) dir]
        have : (cfg.opt_max_dump - 1 - count).toNat
            = (cfg.opt_max_dump - 1 - (count + 1)).toNat + 1 := by omega
        rw [this, List.drop_succ_cons]
      · simp only [hlt, if_false, hunl, if_true]
        rw [remove_dump_files_loop_eq cfg sys dumpname hunl rest (count + 1) (unlink e.name dir)]
        have h0 : (cfg.opt_max_dump - 1 - count).toNat = 0 := by omega
        have h1 : (cfg.opt_max_dump - 1 - (count + 1)).toNat = 0 := by omega
        rw [h0, h1]
        simp only [List.drop_zero, unlink, List.filter_filter, List.map_cons]
        apply List.filter_congr
        intro f _
        by_cases h1 : f.name = e.name <;>
          by_cases h2 : f.name ∈ List.map File.name (files_counted dumpname rest) <;>
          simp [h1, h2]
    · have hP' : walk_match dumpname e = false := by simpa using hP
      have hc : (hidden e.name = true ∨ strncmp dumpname e.name DUMP_TYPE_LEN ≠ 0) :=
        (walk_match_eq_false_iff dumpname e).1 hP'
      have hf : files_counted dumpname (e :: rest) = files_counted dumpname rest := by
        simp [files_counted, List.filter_cons, hP']
      rw [if_pos hc, hf]
      exact remove_dump_files_loop_eq cfg sys dumpname hunl rest count dir

/-- After the walk over a listing of the directory with every `unlink` succeeding, the files
still counted are exactly the first `opt_max_dump - 1` counted entries, when names are not
shared; in any case there are at most that many. -/
theorem files_counted_loop_length (cfg : Config) (sys : Sys) (dumpname : List Byte)
    (hunl : ∀ n, sys.unlink_ok n = true) (namelist dir : List File)
    (hperm : namelist.Perm dir) :
    (files_counted dumpname
        (remove_dump_files_loop cfg sys dumpname namelist 0 dir)).length
      ≤ (cfg.opt_max_dump - 1).toNat := by
  rw [remove_dump_files_loop_eq cfg sys dumpname hunl]
  simp only [sub_zero]
  generalize hk : (cfg.opt_max_dump - 1).toNat = k
  set E := ((files_counted dumpname namelist).drop k).map File.name with hE
  have h1 : (files_counted dumpname (dir.filter (fun f => decide (f.name ∉ E)))).length
      = (files_counted dumpname (namelist.filter (fun f => decide (f.name ∉ E)))).length := by
    unfold files_counted
    exact ((hperm.symm.filter _).filter _).length_eq
  rw [h1]
  have h2 : files_counted dumpname (namelist.filter (fun f => decide (f.name ∉ E)))
      = (files_counted dumpname namelist).filter (fun f => decide (f.name ∉ E)) := by
    unfold files_counted
    rw [List.filter_filter, List.filter_filter]
    apply List.filter_congr
    intro f _
    exact Bool.and_comm _ _
  rw [h2]
  conv_lhs => rw [← List.take_append_drop k (files_counted dumpname namelist)]
  rw [List.filter_append]
  have h3 : ((files_counted dumpname namelist).drop k).filter (fun f => decide (f.name ∉ E))
      = [] := by
    rw [List.filter_eq_nil_iff]
    intro f hf
    simp only [decide_eq_true_eq, not_not]
    exact List.mem_map_of_mem _ hf
  rw [h3, List.append_nil]
  calc ((List.take k (files_counted dumpname namelist)).filter _).length
      ≤ (List.take k (files_counted dumpname namelist)).length := List.length_filter_le _ _
    _ ≤ k := by simp

theorem cstr_ne_zero (l : List Byte) : ∀ b ∈ cstr l, b ≠ 0 := by
  intro b hb
  have := List.mem_takeWhile_imp hb
  simpa using this

theorem strncmp_eq_zero_iff : ∀ (n : Nat) (s t : List Byte), (∀ b ∈ s, b ≠ 0) →
    n ≤ s.length → (strncmp s t n = 0 ↔ t.take n = s.take n)
  | 0, s, t, _, _ => by simp [strncmp]
  | n + 1, [], t, _, h => by simp at h
  | n + 1, a :: s, [], hz, _ => by
    have ha : a ≠ 0 := hz a (List.mem_cons_self _ _)
    have : (a.val : Int) ≠ 0 := by
      intro h
      apply ha
      apply Fin.ext
      simpa using h
    simp [strncmp, this]
  | n + 1, a :: s, b :: t, hz, h => by
    have ha : a ≠ 0 := hz a (List.mem_cons_self _ _)
    have ih := strncmp_eq_zero_iff n s t (fun x hx => hz x (List.mem_cons_of_mem _ hx))
      (by simpa using h)
    unfold strncmp
    by_cases hab : a = b
    · subst hab
      simp [ha, ih]
    · have : (a.val : Int) - (b.val : Int) ≠ 0 := by
        intro h
        apply hab
        apply Fin.ext
        omega
      have hba : ¬ b = a := fun h => hab h.symm
      simp [hab, this, hba]

theorem hidden_take (l : List Byte) (n : Nat) (hn : 0 < n) : hidden (l.take n) = hidden l := by
  cases l with
  | nil => simp
  | cons a t =>
    cases n with
    | zero => omega
    | succ k => simp [hidden]

/-- For a dump name of at least `DUMP_TYPE_LEN` characters that is not hidden, the test of
the retention walk holds exactly for the names that start with the type code. -/
theorem walk_match_eq_starts_with (dumpname : List Byte) (hz : ∀ b ∈ dumpname, b ≠ 0)
    (hlen : DUMP_TYPE_LEN ≤ dumpname.length) (hh : hidden dumpname = false) (f : File) :
    walk_match dumpname f = starts_with (type_code dumpname) f.name := by
  have hs := strncmp_eq_zero_iff DUMP_TYPE_LEN dumpname f.name hz hlen
  have hl : (type_code dumpname).length = DUMP_TYPE_LEN := by
    simp [type_code, hlen]
  unfold walk_match starts_with
  rw [hl]
  by_cases h : f.name.take DUMP_TYPE_LEN = type_code dumpname
  · have h1 : strncmp dumpname f.name DUMP_TYPE_LEN = 0 := hs.2 h
    have h2 : hidden f.name = false := by
      rw [← hidden_take f.name DUMP_TYPE_LEN (by decide), h, type_code,
        hidden_take dumpname DUMP_TYPE_LEN (by decide), hh]
    simp [h, h1, h2]
  · have h1 : ¬ strncmp dumpname f.name DUMP_TYPE_LEN = 0 := fun h' => h (hs.1 h')
    simp [h, h1]

theorem files_counted_eq_files_of_type (dumpname : List Byte) (hz : ∀ b ∈ dumpname, b ≠ 0)
    (hlen : DUMP_TYPE_LEN ≤ dumpname.length) (hh : hidden dumpname = false)
    (dir : List File) : files_counted dumpname dir = files_of_type dumpname dir := by
  unfold files_counted files_of_type
  apply List.filter_congr
  intro f _
  exact walk_match_eq_starts_with dumpname hz hlen hh f

/-! ## Theorems: dump processor -/

theorem dump_name_isSome (buf : List Byte) :
    ∃ name, dump_name buf = some name ∧ (∀ b ∈ name, b ≠ 0) ∧ name.length ≤ 47 := by
  obtain ⟨dfile, p, h1, _, _, h4, _, _⟩ := dump_get_file_name_process buf 0
  exact ⟨cstr dfile, by simp [dump_name, h1], cstr_ne_zero dfile, h4⟩

theorem tmp_ne (name : List Byte) : name ++ TMP_SUFFIX ≠ name := by
  intro h
  have := congrArg List.length h
  simp [TMP_SUFFIX] at this

theorem exists_file_eq_false_iff (name : List Byte) (dir : List File) :
    exists_file name dir = false ↔ ∀ f ∈ dir, f.name ≠ name := by
  simp [exists_file]

/-- The directory after the temporary file, created in a directory that did not hold it, is
renamed to the final name. -/
theorem rename_tmp (tmp name : List Byte) (t : Int) (dir : List File)
    (hex : exists_file tmp dir = false) (hne : tmp ≠ name) :
    rename tmp name (dir ++ [{ name := tmp, mtime := t }])
      = unlink name dir ++ [{ name := name, mtime := t }] := by
  rw [exists_file_eq_false_iff] at hex
  unfold rename unlink
  rw [List.filter_append, List.map_append]
  congr 1
  · rw [List.map_congr_left (g := id)]
    · simp
    · intro f hf
      have := hex f (List.mem_of_mem_filter hf)
      simp [this]
  · simp [hne]

/-- What a successful `write_dump` leaves. -/
theorem write_dump_ok (cfg : Config) (sys : Sys) (name : List Byte) (dir dir' : List File)
    (h : write_dump cfg sys name dir = (Outcome.ok, dir')) :
    dir' = unlink name (remove_dump_files cfg sys name dir)
      ++ [{ name := name, mtime := sys.now }] := by
  unfold write_dump at h
  simp only at h
  split at h
  · simp at h
  · rename_i hex
    split at h
    · simp at h
    · split at h
      · simp at h
      · split at h
        · simp at h
        · split at h
          · simp at h
          · split at h
            · simp at h
            · simp only [Prod.mk.injEq, true_and] at h
              rw [← h]
              exact rename_tmp _ _ _ _ (by simpa using hex) (tmp_ne name)

theorem store_dump_eq (cfg : Config) (sys : Sys) (buf name : List Byte) (dir : List File)
    (hn : dump_name buf = some name) :
    store_dump cfg sys buf dir = write_dump cfg sys name dir := by
  rw [store_dump, hn]

/-- What a successful `process_dump` did. -/
theorem process_dump_ok (cfg : Config) (sys : Sys) (payload : List Byte) (fuel : Nat)
    (dir dir' : List File)
    (h : process_dump cfg sys payload fuel dir = some (Outcome.ok, dir')) :
    ∃ name, dump_name payload = some name ∧ (∀ b ∈ name, b ≠ 0) ∧ name.length ≤ 47
      ∧ write_dump cfg sys name dir = (Outcome.ok, dir') := by
  obtain ⟨name, hn, hz, hl⟩ := dump_name_isSome payload
  refine ⟨name, hn, hz, hl, ?_⟩
  rw [process_dump] at h
  by_cases h1 : sys.stat_ok = true
  · by_cases h2 : sys.malloc_ok = true
    · by_cases h3 : sys.open_in_ok = true
      · simp only [h1, h2, h3, not_true_eq_false, if_false] at h
        cases hr : read_loop sys.read payload.length fuel 0 0 with
        | none => rw [hr] at h; simp at h
        | some r =>
          rw [hr] at h
          cases r with
          | none => simp at h
          | some sz =>
            rw [store_dump_eq cfg sys payload name dir hn] at h
            exact Option.some.inj h
      · simp [h1, h2, h3] at h
    · simp [h1, h2] at h
  · simp [h1] at h

theorem insert_newest_perm (f : File) : ∀ l : List File, (insert_newest f l).Perm (f :: l)
  | [] => by simp [insert_newest]
  | g :: rest => by
    unfold insert_newest
    split
    · exact List.Perm.refl _
    · exact ((insert_newest_perm f rest).cons g).trans (List.Perm.swap f g rest)

theorem scandir_newest_first_perm (dir : List File) :
    ∃ l, scandir_newest_first dir = some l ∧ l.Perm dir := by
  refine ⟨_, rfl, ?_⟩
  induction dir with
  | nil => exact List.Perm.refl _
  | cons f rest ih => exact (insert_newest_perm f _).trans (ih.cons f)

theorem files_counted_unlink_length (dumpname name : List Byte) (dir : List File) :
    (files_counted dumpname (unlink name dir)).length ≤ (files_counted dumpname dir).length := by
  unfold files_counted unlink
  exact ((List.filter_sublist dir).filter _).length_le

/-- The bound behind the retention cap: after a successful `write_dump` on a listing that
`scandir` returned for the directory, with every `unlink` of the walk succeeding, at most
`opt_max_dump` files are counted by the walk. -/
theorem write_dump_counted_le (cfg : Config) (sys : Sys) (name : List Byte)
    (dir dir' : List File) (hmax : 1 ≤ cfg.opt_max_dump)
    (hscan : ∀ d, ∃ l, sys.scandir d = some l ∧ l.Perm d)
    (hunl : ∀ n, sys.unlink_ok n = true)
    (h : write_dump cfg sys name dir = (Outcome.ok, dir')) :
    ((files_counted name dir').length : Int) ≤ cfg.opt_max_dump := by
  rw [write_dump_ok cfg sys name dir dir' h]
  obtain ⟨l, hl, hperm⟩ := hscan (check_dup_dump_file cfg sys name dir)
  have hrm : remove_dump_files cfg sys name dir
      = remove_dump_files_loop cfg sys name l 0 (check_dup_dump_file cfg sys name dir) := by
    simp only [remove_dump_files, hl]
  have hb := files_counted_loop_length cfg sys name hunl l _ hperm
  rw [← hrm] at hb
  have hu := files_counted_unlink_length name name (remove_dump_files cfg sys name dir)
  have ha : (files_counted name (unlink name (remove_dump_files cfg sys name dir)
      ++ [{ name := name, mtime := sys.now }])).length
      ≤ (files_counted name (unlink name (remove_dump_files cfg sys name dir))).length + 1 := by
    unfold files_counted
    rw [List.filter_append, List.length_append]
    exact Nat.add_le_add_left (List.length_filter_le _ _) _
  omega

/-- C3 (as stated, refuted): with `maxRetained = 1`, an output directory holding the hidden
files ".dump01.a" and ".dump01.b", and a dump named ".dump01", no deletion fails (none is
attempted, hidden entries are skipped), the dump is written successfully, and three files
whose name starts with the type code ".dump01" are in the output directory. -/
theorem retention_cap_counterexample :
    (cfg_max 1).opt_max_dump = 1
    ∧ (sys_ok 5).unlink_dup_ok = true ∧ (∀ n, (sys_ok 5).unlink_ok n = true)
    ∧ dump_name (payload_named (ascii ".dump01")) = some (ascii ".dump01")
    ∧ type_code (ascii ".dump01") = ascii ".dump01"
    ∧ process_dump (cfg_max 1) (sys_ok 5) (payload_named (ascii ".dump01")) 1 hidden_dir
        = some (Outcome.ok, hidden_dir ++ [⟨ascii ".dump01", 5⟩])
    ∧ (files_of_type (ascii ".dump01") (hidden_dir ++ [⟨ascii ".dump01", 5⟩])).length = 3 :=
  ⟨by decide, by decide, fun _ => rfl, by decide, by decide, by decide, by decide⟩

/-- C3 (amended): for every initial content of the output directory, every payload and
every `maxRetained ≥ 1`, if `scandir` succeeds and lists the directory, every `unlink` of
the retention walk succeeds and `process_dump` writes the new dump successfully, then at
most `maxRetained` files of the output directory are counted by the walk for the dump name
(not hidden and equal to the dump name under `strncmp` over `DUMP_TYPE_LEN` bytes); when
the dump name has at least `DUMP_TYPE_LEN` characters and does not begin with '.', these
are the files whose name starts with the type code, so at most `maxRetained` files start
with it. -/
theorem retention_cap (cfg : Config) (sys : Sys) (payload : List Byte) (fuel : Nat)
    (dir dir' : List File) (hmax : 1 ≤ cfg.opt_max_dump)
    (hscan : ∀ d, ∃ l, sys.scandir d = some l ∧ l.Perm d)
    (hunl : ∀ n, sys.unlink_ok n = true)
    (hrun : process_dump cfg sys payload fuel dir = some (Outcome.ok, dir')) :
    ∃ name, dump_name payload = some name
      ∧ ((files_counted name dir').length : Int) ≤ cfg.opt_max_dump
      ∧ (DUMP_TYPE_LEN ≤ name.length → hidden name = false →
          ((files_of_type name dir').length : Int) ≤ cfg.opt_max_dump) := by
  obtain ⟨name, hn, hz, _, hw⟩ := process_dump_ok cfg sys payload fuel dir dir' hrun
  have hb := write_dump_counted_le cfg sys name dir dir' hmax hscan hunl hw
  refine ⟨name, hn, hb, ?_⟩
  intro hlen hh
  rw [← files_counted_eq_files_of_type name hz hlen hh]
  exact hb

/-- The fifth dump "PLATFRM.5" processed with `maxRetained = 4` on the directory holding
"PLATFRM.1" to "PLATFRM.4". -/
theorem retention_cap_witness :
    (1 : Int) ≤ (cfg_max 4).opt_max_dump
    ∧ process_dump (cfg_max 4) (sys_ok 5) (payload_named (platfrm 5)) 1 platfrm_dir
        = some (Outcome.ok, [⟨platfrm 2, 2⟩, ⟨platfrm 3, 3⟩, ⟨platfrm 4, 4⟩, ⟨platfrm 5, 5⟩])
    ∧ ∃ name, dump_name (payload_named (platfrm 5)) = some name
      ∧ ((files_counted name
          [⟨platfrm 2, 2⟩, ⟨platfrm 3, 3⟩, ⟨platfrm 4, 4⟩, ⟨platfrm 5, 5⟩]).length : Int)
          ≤ (cfg_max 4).opt_max_dump
      ∧ (DUMP_TYPE_LEN ≤ name.length → hidden name = false →
          ((files_of_type name
            [⟨platfrm 2, 2⟩, ⟨platfrm 3, 3⟩, ⟨platfrm 4, 4⟩, ⟨platfrm 5, 5⟩]).length : Int)
            ≤ (cfg_max 4).opt_max_dump) :=
  ⟨by decide, by decide,
    retention_cap (cfg_max 4) (sys_ok 5) (payload_named (platfrm 5)) 1 platfrm_dir _
      (by decide) scandir_newest_first_perm (fun _ => rfl) (by decide)⟩

theorem check_dup_dump_file_absent (cfg : Config) (sys : Sys) (name : List Byte)
    (dir : List File) (h : ∀ f ∈ dir, f.name ≠ name) :
    check_dup_dump_file cfg sys name dir = dir := by
  have : exists_file name dir = false := (exists_file_eq_false_iff name dir).2 h
  unfold check_dup_dump_file
  simp [this]

theorem unlink_absent (name : List Byte) (dir : List File) (h : ∀ f ∈ dir, f.name ≠ name) :
    unlink name dir = dir := by
  unfold unlink
  rw [List.filter_eq_self]
  intro f hf
  simpa using h f hf

/-- In a listing ordered newest first with distinct modification times, the first `k`
entries are those with fewer than `k` strictly newer entries. -/
theorem mem_take_iff_newer : ∀ (M : List File),
    M.Pairwise (fun a b => b.mtime < a.mtime) → ∀ (k : Nat) (f : File), f ∈ M →
    (f ∈ M.take k ↔ (M.filter (fun g => decide (f.mtime < g.mtime))).length < k)
  | [], _, _, f, hf => by simp at hf
  | a :: M, hs, 0, f, _ => by simp
  | a :: M, hs, k + 1, f, hf => by
    rw [List.pairwise_cons] at hs
    rcases List.mem_cons.1 hf with hfa | hfM
    · subst hfa
      have : (f :: M).filter (fun g => decide (f.mtime < g.mtime)) = [] := by
        rw [List.filter_eq_nil_iff]
        intro g hg
        rcases List.mem_cons.1 hg with hgf | hgM
        · subst hgf
          simp
        · have := hs.1 g hgM
          simp only [decide_eq_true_eq, not_lt]
          omega
      rw [this]
      simp
    · have hlt : f.mtime < a.mtime := hs.1 f hfM
      have hne : f ≠ a := by
        intro h
        rw [h] at hlt
        omega
      have ih := mem_take_iff_newer M hs.2 k f hfM
      rw [List.take_succ_cons, List.mem_cons, List.filter_cons_of_pos (by simpa using hlt),
        List.length_cons]
      constructor
      · rintro (h | h)
        · exact absurd h hne
        · have := ih.1 h
          omega
      · intro h
        exact Or.inr (ih.2 (by omega))

/-- With distinct names, an entry of `M` is among the first `k` exactly when its name is not
the name of a later entry. -/
theorem mem_take_iff_name (M : List File) (hn : (M.map File.name).Nodup) (k : Nat) (f : File)
    (hf : f ∈ M) : f ∈ M.take k ↔ f.name ∉ (M.drop k).map File.name := by
  rw [← List.take_append_drop k M, List.map_append, List.nodup_append] at hn
  constructor
  · intro h1 h2
    exact hn.2.2 (List.mem_map_of_mem _ h1) h2
  · intro h
    rw [← List.take_append_drop k M, List.mem_append] at hf
    rcases hf with h1 | h1
    · exact h1
    · exact absurd (List.mem_map_of_mem _ h1) h

theorem strncmp_self : ∀ (n : Nat) (s : List Byte), strncmp s s n = 0
  | 0, s => by simp [strncmp]
  | n + 1, [] => by simp [strncmp]
  | n + 1, a :: s => by
    unfold strncmp
    simp only [if_true]
    split
    · rfl
    · exact strncmp_self n s

/-- The files counted by the walk after a successful `write_dump` of a new name on a listing
ordered newest first: the new file and the first `opt_max_dump - 1` counted entries. -/
theorem write_dump_counted_mem (cfg : Config) (sys : Sys) (name : List Byte)
    (dir dir' namelist : List File)
    (hscan : sys.scandir dir = some namelist) (hperm : namelist.Perm dir)
    (hnodup : (dir.map File.name).Nodup)
    (hnew : ∀ f ∈ dir, f.name ≠ name)
    (hunl : ∀ n, sys.unlink_ok n = true)
    (hh : hidden name = false)
    (h : write_dump cfg sys name dir = (Outcome.ok, dir')) (f : File) :
    f ∈ files_counted name dir' ↔
      (f = ⟨name, sys.now⟩ ∨
        f ∈ (files_counted name namelist).take (cfg.opt_max_dump - 1).toNat) := by
  rw [write_dump_ok cfg sys name dir dir' h]
  have hrm : remove_dump_files cfg sys name dir
      = remove_dump_files_loop cfg sys name namelist 0 dir := by
    simp only [remove_dump_files, check_dup_dump_file_absent cfg sys name dir hnew, hscan]
  rw [hrm, remove_dump_files_loop_eq cfg sys name hunl]
  simp only [sub_zero]
  generalize (cfg.opt_max_dump - 1).toNat = k
  rw [unlink_absent]
  swap
  · intro g hg
    exact hnew g (List.mem_of_mem_filter hg)
  have hMn : ((files_counted name namelist).map File.name).Nodup := by
    have h1 : ((namelist.map File.name)).Nodup := (hperm.map _).nodup_iff.2 hnodup
    exact h1.sublist ((List.filter_sublist namelist).map _)
  have hN : walk_match name ⟨name, sys.now⟩ = true := by
    simp [walk_match, hh, strncmp_self]
  unfold files_counted at hMn ⊢
  rw [List.filter_append, List.mem_append]
  have e1 : List.filter (walk_match name) [({ name := name, mtime := sys.now } : File)]
      = [⟨name, sys.now⟩] := by
    simp [List.filter_cons, hN]
  rw [e1, List.mem_singleton, List.mem_filter, List.mem_filter]
  constructor
  · rintro (⟨⟨hd, hE⟩, hP⟩ | h)
    · right
      have hfM : f ∈ List.filter (walk_match name) namelist :=
        List.mem_filter.2 ⟨hperm.mem_iff.2 hd, hP⟩
      exact (mem_take_iff_name _ hMn k f hfM).2 (by simpa using hE)
    · exact Or.inl h
  · rintro (h | h)
    · exact Or.inr h
    · left
      have hfM : f ∈ List.filter (walk_match name) namelist := List.mem_of_mem_take h
      have := (mem_take_iff_name _ hMn k f hfM).1 h
      rw [List.mem_filter] at hfM
      exact ⟨⟨hperm.mem_iff.1 hfM.1, by simpa using this⟩, hfM.2⟩

/-- With the new file the newest and the listing ordered newest first, the `opt_max_dump`
most recently modified among the new file and the counted files of the directory are the
new file and the first `opt_max_dump - 1` counted entries of the listing. -/
theorem among_newest_iff (max : Int) (name : List Byte) (now : Int)
    (dir namelist : List File) (hmax : 1 ≤ max) (hperm : namelist.Perm dir)
    (hsorted : namelist.Pairwise (fun a b => b.mtime < a.mtime))
    (hnewest : ∀ f ∈ dir, f.mtime < now) (f : File) :
    among_newest max (⟨name, now⟩ :: files_counted name dir) f ↔
      (f = ⟨name, now⟩ ∨ f ∈ (files_counted name namelist).take (max - 1).toNat) := by
  have hMs : (files_counted name namelist).Pairwise (fun a b => b.mtime < a.mtime) :=
    hsorted.sublist (List.filter_sublist namelist)
  have hMC : (files_counted name namelist).Perm (files_counted name dir) := hperm.filter _
  have hcnt : ∀ g : File,
      ((files_counted name dir).filter (fun x => decide (g.mtime < x.mtime))).length
        = ((files_counted name namelist).filter (fun x => decide (g.mtime < x.mtime))).length :=
    fun g => (hMC.symm.filter _).length_eq
  have hold : ∀ g ∈ files_counted name dir, g.mtime < now :=
    fun g hg => hnewest g (List.mem_of_mem_filter hg)
  unfold among_newest
  by_cases hfN : f = ⟨name, now⟩
  · subst hfN
    have : (({ name := name, mtime := now } : File) :: files_counted name dir).filter
        (fun g => decide ((⟨name, now⟩ : File).mtime < g.mtime)) = [] := by
      rw [List.filter_eq_nil_iff]
      intro g hg
      rcases List.mem_cons.1 hg with hgN | hgC
      · subst hgN
        simp
      · have := hold g hgC
        simp only [decide_eq_true_eq, not_lt]
        omega
    rw [this]
    simp only [List.mem_cons, true_or, List.length_nil, true_and]
    constructor
    · intro _; trivial
    · intro _; simp; omega
  · simp only [hfN, false_or, List.mem_cons]
    constructor
    · rintro ⟨hfC, hlt⟩
      have hfM : f ∈ files_counted name namelist := hMC.mem_iff.2 hfC
      have hnew : f.mtime < now := hold f hfC
      rw [List.filter_cons_of_pos (by simpa using hnew), List.length_cons, hcnt f] at hlt
      exact (mem_take_iff_newer _ hMs _ f hfM).2 (by omega)
    · intro hft
      have hfM : f ∈ files_counted name namelist := List.mem_of_mem_take hft
      have hfC : f ∈ files_counted name dir := hMC.mem_iff.1 hfM
      have hnew : f.mtime < now := hold f hfC
      refine ⟨hfC, ?_⟩
      rw [List.filter_cons_of_pos (by simpa using hnew), List.length_cons, hcnt f]
      have := (mem_take_iff_newer _ hMs _ f hfM).1 hft
      omega

/-- C4 (amended): for every output directory whose listing by `scandir` is ordered
newest first with distinct modification times and whose names are distinct, every
`maxRetained = N ≥ 1` and every payload whose dump name is the name of a directory entry
(not empty, without '/'), does not begin with '.', is not already present and becomes the
most recently modified file, when no path built by `snprintf` is cut at `PATH_MAX`
(neither the temporary path of the dump nor the path of an entry of the directory), every
`unlink` of the walk succeeds and `process_dump` succeeds, the files counted by the
retention walk for the dump name that remain are exactly the `N` most recently modified
among the counted files of the directory before and the new file; when the name has at
least `DUMP_TYPE_LEN` characters the same holds of the files whose name starts with the
type code. The two hypotheses on the paths delimit the runs in which `write_dump` and
`remove_dump_files_loop` follow the source. -/
theorem retention_keeps_newest (cfg : Config) (sys : Sys) (payload : List Byte) (fuel : Nat)
    (dir dir' namelist : List File) (name : List Byte)
    (hmax : 1 ≤ cfg.opt_max_dump)
    (hname : dump_name payload = some name) (hh : hidden name = false)
    (_hplain : plain_name name) (_hfit : paths_fit cfg name dir)
    (hscan : sys.scandir dir = some namelist) (hperm : namelist.Perm dir)
    (hsorted : namelist.Pairwise (fun a b => b.mtime < a.mtime))
    (hnodup : (dir.map File.name).Nodup)
    (hnew : ∀ f ∈ dir, f.name ≠ name)
    (hnewest : ∀ f ∈ dir, f.mtime < sys.now)
    (hunl : ∀ n, sys.unlink_ok n = true)
    (hrun : process_dump cfg sys payload fuel dir = some (Outcome.ok, dir')) :
    (∀ f, f ∈ files_counted name dir' ↔
        among_newest cfg.opt_max_dump (⟨name, sys.now⟩ :: files_counted name dir) f)
    ∧ (DUMP_TYPE_LEN ≤ name.length → ∀ f, f ∈ files_of_type name dir' ↔
        among_newest cfg.opt_max_dump (⟨name, sys.now⟩ :: files_of_type name dir) f) := by
  obtain ⟨name', hn', hz, _, hw⟩ := process_dump_ok cfg sys payload fuel dir dir' hrun
  have e : name' = name := Option.some.inj (hn'.symm.trans hname)
  subst e
  have key : ∀ f, f ∈ files_counted name' dir' ↔
      among_newest cfg.opt_max_dump (⟨name', sys.now⟩ :: files_counted name' dir) f := by
    intro f
    rw [write_dump_counted_mem cfg sys name' dir dir' namelist hscan hperm hnodup hnew hunl hh
      hw f, among_newest_iff cfg.opt_max_dump name' sys.now dir namelist hmax hperm hsorted
      hnewest f]
  refine ⟨key, ?_⟩
  intro hlen f
  rw [← files_counted_eq_files_of_type name' hz hlen hh, ← files_counted_eq_files_of_type name'
    hz hlen hh]
  exact key f

/-- C4 (as stated, refuted): with `N = 1`, an output directory holding the hidden file
".core00.a" (listed alone, so newest first) and a new dump ".core00.b" that is not present
and becomes the newest file, no deletion fails and the write succeeds, yet the older
".core00.a", a file of the dump's type, remains although it is not among the 1 most
recently modified of the files of that type and the new file. -/
theorem retention_keeps_newest_counterexample :
    (cfg_max 1).opt_max_dump = 1
    ∧ dump_name (payload_named (ascii ".core00.b")) = some (ascii ".core00.b")
    ∧ type_code (ascii ".core00.b") = ascii ".core00"
    ∧ (sys_ok 2).scandir [⟨ascii ".core00.a", 1⟩] = some [⟨ascii ".core00.a", 1⟩]
    ∧ (∀ n, (sys_ok 2).unlink_ok n = true)
    ∧ process_dump (cfg_max 1) (sys_ok 2) (payload_named (ascii ".core00.b")) 1
        [⟨ascii ".core00.a", 1⟩]
        = some (Outcome.ok, [⟨ascii ".core00.a", 1⟩, ⟨ascii ".core00.b", 2⟩])
    ∧ (⟨ascii ".core00.a", 1⟩ : File) ∈
        files_of_type (ascii ".core00.b") [⟨ascii ".core00.a", 1⟩, ⟨ascii ".core00.b", 2⟩]
    ∧ ¬ among_newest 1
        (⟨ascii ".core00.b", 2⟩ :: files_of_type (ascii ".core00.b") [⟨ascii ".core00.a", 1⟩])
        ⟨ascii ".core00.a", 1⟩ :=
  ⟨by decide, by decide, by decide, by decide, fun _ => rfl, by decide, by decide,
    by unfold among_newest; decide⟩

/-- The scenario of the claim: from an empty output directory with `N = 4`, the five dumps
"PLATFRM.1" to "PLATFRM.5" processed in increasing order of modification time leave exactly
four files, the earliest written being the one evicted; and the theorem at the fifth
dump. -/
theorem retention_keeps_newest_witness :
    (find_and_process_dumps (cfg_max 4) 1 (some five_dumps) ⟨[], []⟩).map
        (fun r => (r.1, r.2.outdir))
      = some (5,
          [⟨platfrm 2, 2⟩, ⟨platfrm 3, 3⟩, ⟨platfrm 4, 4⟩, ⟨platfrm 5, 5⟩])
    ∧ (1 : Int) ≤ (cfg_max 4).opt_max_dump
    ∧ ((∀ f, f ∈ files_counted (platfrm 5)
            [⟨platfrm 2, 2⟩, ⟨platfrm 3, 3⟩, ⟨platfrm 4, 4⟩, ⟨platfrm 5, 5⟩] ↔
          among_newest (cfg_max 4).opt_max_dump
            (⟨platfrm 5, (sys_ok 5).now⟩ :: files_counted (platfrm 5) platfrm_dir) f)
      ∧ (DUMP_TYPE_LEN ≤ (platfrm 5).length → ∀ f, f ∈ files_of_type (platfrm 5)
            [⟨platfrm 2, 2⟩, ⟨platfrm 3, 3⟩, ⟨platfrm 4, 4⟩, ⟨platfrm 5, 5⟩] ↔
          among_newest (cfg_max 4).opt_max_dump
            (⟨platfrm 5, (sys_ok 5).now⟩ :: files_of_type (platfrm 5) platfrm_dir) f)) :=
  ⟨by decide, by decide,
    retention_keeps_newest (cfg_max 4) (sys_ok 5) (payload_named (platfrm 5)) 1 platfrm_dir _
      [⟨platfrm 4, 4⟩, ⟨platfrm 3, 3⟩, ⟨platfrm 2, 2⟩, ⟨platfrm 1, 1⟩] (platfrm 5)
      (by decide) (by decide) (by decide) (by unfold plain_name; decide)
      (by unfold paths_fit; decide) (by decide) (by decide) (by decide) (by decide)
      (by decide) (by decide) (fun _ => rfl) (by decide)⟩

/-- C7 (the code at the failing input): the dump root lists the dump directories 0x1, whose
dump is extracted, and 0x2, whose dump cannot be read. `find_and_process_dumps` sees the
results 0 and -1 and returns 1, not the failure value; listed in the other order, with
the results -1 and 0, it returns -1. -/
theorem sticky_failure_lost :
    find_and_process_dumps (cfg_max 4) 1
        (some [pending (ascii "0x1") (platfrm 1) 1, pending_unreadable (ascii "0x2")]) world0
      = some (1,
          { outdir := [⟨platfrm 1, 1⟩],
            trace := [Event.process (ascii "0x1") 0, Event.ack_open (ascii "0x1") true,
              Event.ack_write (ascii "0x1") true, Event.process (ascii "0x2") (-1),
              Event.ack_open (ascii "0x2") true, Event.ack_write (ascii "0x2") true] })
    ∧ find_and_process_dumps (cfg_max 4) 1
        (some [pending_unreadable (ascii "0x2"), pending (ascii "0x1") (platfrm 1) 1]) world0
      = some (-1,
          { outdir := [⟨platfrm 1, 1⟩],
            trace := [Event.process (ascii "0x2") (-1), Event.ack_open (ascii "0x2") true,
              Event.ack_write (ascii "0x2") true, Event.process (ascii "0x1") 0,
              Event.ack_open (ascii "0x1") true, Event.ack_write (ascii "0x1") true] }) :=
  ⟨by decide, by decide⟩

/-- C8 (the code at the failing input): without wait mode, the set-up succeeding, the dump
root lists 0x1, whose dump is extracted, and 0x2, whose dump cannot be read: `main` exits
with status 0 although a pending dump failed to extract. -/
theorem exit_status_zero_after_failure :
    (cfg_max 4).opt_wait = false
    ∧ main (cfg_max 4) setup_ok 1
        [{ listing := some [pending (ascii "0x1") (platfrm 1) 1,
              pending_unreadable (ascii "0x2")],
           open_root_ok := true, select_rc := 1 }] world0
      = some (0,
          { outdir := [⟨platfrm 1, 1⟩],
            trace := [Event.process (ascii "0x1") 0, Event.ack_open (ascii "0x1") true,
              Event.ack_write (ascii "0x1") true, Event.process (ascii "0x2") (-1),
              Event.ack_open (ascii "0x2") true, Event.ack_write (ascii "0x2") true,
              Event.drain 1] }) :=
  ⟨rfl, by decide⟩

/-- In wait mode, the loop of `main` exits with status 0 exactly after a drain cycle that
returned a positive count, and otherwise with `EXIT_FAILURE`. -/
theorem main_loop_exit (cfg : Config) (fuel : Nat) (hwait : cfg.opt_wait = true) :
    ∀ (cycles : List Cycle) (w : World) (status : Int) (w' : World),
      main_loop cfg fuel cycles w = some (status, w') →
      (status = 0 ∨ status = EXIT_FAILURE)
      ∧ (status = 0 ↔ ∃ rc, 0 < rc ∧ w'.trace.getLast? = some (Event.drain rc))
  | [], w, status, w', h => by simp [main_loop] at h
  | c :: rest, w, status, w', h => by
    rw [main_loop] at h
    cases hf : find_and_process_dumps cfg fuel c.listing w with
    | none => rw [hf] at h; simp at h
    | some r =>
      obtain ⟨rc, w1⟩ := r
      rw [hf] at h
      simp only [hwait, and_true] at h
      by_cases hrc : rc = 0
      · rw [if_pos hrc] at h
        by_cases ho : c.open_root_ok = true
        · rw [if_neg (by simpa using ho)] at h
          by_cases hs : c.select_rc = -1
          · simp only [hs, if_true, Option.some.injEq, Prod.mk.injEq] at h
            obtain ⟨h1, h2⟩ := h
            subst h1 h2
            simp [exit_status, EXIT_FAILURE]
          · simp only [hs, if_false] at h
            exact main_loop_exit cfg fuel hwait rest _ status w' h
        · rw [if_pos (by simpa using ho)] at h
          simp only [Option.some.injEq, Prod.mk.injEq] at h
          obtain ⟨h1, h2⟩ := h
          subst h1 h2
          simp [exit_status, EXIT_FAILURE]
      · rw [if_neg hrc] at h
        simp only [Option.some.injEq, Prod.mk.injEq] at h
        obtain ⟨h1, h2⟩ := h
        subst h1 h2
        unfold exit_status EXIT_FAILURE
        by_cases hneg : rc < 0
        · rw [if_pos hneg]
          refine ⟨Or.inr rfl, ?_⟩
          constructor
          · intro h; exact absurd h (by decide)
          · rintro ⟨x, hx, hx'⟩
            simp at hx'
            omega
        · rw [if_neg hneg]
          refine ⟨Or.inl rfl, ?_⟩
          constructor
          · intro _
            exact ⟨rc, by omega, by simp⟩
          · intro _; rfl

/-- In wait mode, after a drain cycle that returned 0, `main` opens the dump root, waits in
`select` and, unless one of the two fails, drains again. -/
theorem main_loop_wait_again (cfg : Config) (fuel : Nat) (hwait : cfg.opt_wait = true)
    (c : Cycle) (rest : List Cycle) (w0 w1 : World)
    (hf : find_and_process_dumps cfg fuel c.listing w0 = some (0, w1))
    (ho : c.open_root_ok = true) (hs : c.select_rc ≠ -1) :
    main_loop cfg fuel (c :: rest) w0
      = main_loop cfg fuel rest
          { outdir := w1.outdir,
            trace := w1.trace ++ [Event.drain 0]
              ++ [Event.open_root true, Event.select c.select_rc] } := by
  rw [main_loop, hf]
  simp only [hwait, and_true, if_true, ho, not_true_eq_false, if_false, hs]

/-- C9 (as stated, refuted): with the wait toggle enabled and the set-up succeeding, a
first drain cycle that finds the dump directory 0x1 and extracts its dump returns 1, and
`main` exits with status 0 without opening the dump root or waiting. -/
theorem wait_mode_counterexample :
    cfg_wait.opt_wait = true
    ∧ main cfg_wait setup_ok 1
        [{ listing := some [pending (ascii "0x1") (platfrm 1) 1],
           open_root_ok := true, select_rc := 1 }] world0
      = some (0,
          { outdir := [⟨platfrm 1, 1⟩],
            trace := [Event.process (ascii "0x1") 0, Event.ack_open (ascii "0x1") true,
              Event.ack_write (ascii "0x1") true, Event.drain 1] }) :=
  ⟨rfl, by decide⟩

theorem ack_dump_append (d : PendingDump) (trace : List Event) :
    ack_dump d trace = trace ++ ack_dump d [] := by
  unfold ack_dump
  split <;> simp

theorem long_to_int_of_small (x : Int) (h1 : -2 ^ 31 ≤ x) (h2 : x < 2 ^ 31) :
    long_to_int x = x := by
  unfold long_to_int
  split <;> omega

theorem wrap_long_of_small (x : Int) (h1 : -2 ^ 63 ≤ x) (h2 : x < 2 ^ 63) :
    wrap_long x = x := by
  unfold wrap_long
  split <;> omega

/-- When the two modification times differ by less than 2 ^ 31 seconds, `timesort` returns
their difference, so its sign orders the entries newest first. -/
theorem timesort_of_small_diff (stat : List Byte → Option Int) (file1 file2 : List Byte)
    (mtime1 mtime2 : Int) (hs1 : stat file1 = some mtime1) (hs2 : stat file2 = some mtime2)
    (h1 : -2 ^ 31 ≤ mtime2 - mtime1) (h2 : mtime2 - mtime1 < 2 ^ 31) :
    timesort stat file1 file2 = mtime2 - mtime1 := by
  unfold timesort
  rw [hs1, hs2]
  simp only
  rw [wrap_long_of_small _ (by omega) (by omega), long_to_int_of_small _ h1 h2]

/-- C11 (the code at the failing inputs): both `stat` calls succeed and the modification
times are representable in 64 bits, yet `timesort` returns 0 for the times 0 and 2 ^ 32,
which differ; a negative value for the times 0 and 2 ^ 31, where the first entry is
strictly older; and a positive value for the times 2 ^ 31 + 1 and 0, where the first entry
is strictly newer. -/
theorem timesort_truncates :
    timesort (stat_two 0 (2 ^ 32)) (ascii "a") (ascii "b") = 0
    ∧ timesort (stat_two 0 (2 ^ 31)) (ascii "a") (ascii "b") = -2 ^ 31
    ∧ timesort (stat_two (2 ^ 31 + 1) 0) (ascii "a") (ascii "b") = 2 ^ 31 - 1 :=
  ⟨by decide, by decide, by decide⟩

/-- While `read` returns 0 and the buffer is not full, the read loop does not end. -/
theorem read_loop_zero (bufsz : Nat) : ∀ (fuel k sz : Nat), sz ≠ bufsz →
    read_loop (fun _ => some 0) bufsz fuel k sz = none
  | 0, _, _, _ => rfl
  | fuel + 1, k, sz, h => by
    rw [read_loop]
    simp only [Nat.zero_min, Nat.add_zero, ne_eq, h, not_false_eq_true, if_true]
    exact read_loop_zero bufsz fuel (k + 1) sz h

/-- When no call of `read` returns 0, the read loop ends within `bufsz + 1` iterations. -/
theorem read_loop_ends (read : Nat → Option Nat) (bufsz : Nat)
    (hread : ∀ k, read k ≠ some 0) :
    ∀ (fuel k sz : Nat), sz ≤ bufsz → bufsz - sz < fuel →
      ∃ r, read_loop read bufsz fuel k sz = some r
  | 0, _, _, _, h => by omega
  | fuel + 1, k, sz, hle, hlt => by
    rw [read_loop]
    cases hr : read k with
    | none => exact ⟨none, rfl⟩
    | some readsz =>
      simp only
      have hpos : 0 < readsz := by
        rcases Nat.eq_zero_or_pos readsz with h | h
        · rw [h] at hr; exact absurd hr (hread k)
        · exact h
      by_cases hne : sz + min readsz (bufsz - sz) ≠ bufsz
      · rw [if_pos hne]
        exact read_loop_ends read bufsz hread fuel (k + 1) _ (by omega) (by omega)
      · rw [if_neg hne]
        exact ⟨_, rfl⟩

/-- C12 (the code at the failing input): the dump file is reported with 72 bytes and every
`read` returns 0 (end of file) before the buffer is full. The read loop is still running
after any number of iterations, so `process_dump` never returns. -/
theorem read_loop_eof_never_ends (fuel : Nat) :
    (payload_named (platfrm 1)).length = 72
    ∧ read_loop (sys_eof 1).read 72 fuel 0 0 = none
    ∧ process_dump (cfg_max 4) (sys_eof 1) (payload_named (platfrm 1)) fuel [] = none := by
  have hlen : (payload_named (platfrm 1)).length = 72 := by decide
  have h := read_loop_zero 72 fuel 0 0 (by decide)
  refine ⟨hlen, h, ?_⟩
  rw [process_dump, hlen]
  have e : (sys_eof 1).read = fun _ => some 0 := rfl
  rw [e, h]
  rfl

/-! ## Theorems: the size passed to the header parser -/

/-- A drain cycle that returns a status other than 0 ends the run at once: with exit status
0 for a positive count and `EXIT_FAILURE` for a negative status. -/
theorem main_loop_nonzero (cfg : Config) (fuel : Nat) (c : Cycle) (rest : List Cycle)
    (w0 w1 : World) (rc : Int)
    (hf : find_and_process_dumps cfg fuel c.listing w0 = some (rc, w1)) (hrc : rc ≠ 0) :
    main_loop cfg fuel (c :: rest) w0
      = some (if rc < 0 then EXIT_FAILURE else 0,
          { outdir := w1.outdir, trace := w1.trace ++ [Event.drain rc] }) := by
  rw [main_loop, hf]
  simp only [hrc, false_and, if_false, exit_status]

/-- In wait mode, a drain cycle that returns 0 followed by a failed `open` of the dump root
ends the run with `EXIT_FAILURE`. -/
theorem main_loop_open_fails (cfg : Config) (fuel : Nat) (hwait : cfg.opt_wait = true)
    (c : Cycle) (rest : List Cycle) (w0 w1 : World)
    (hf : find_and_process_dumps cfg fuel c.listing w0 = some (0, w1))
    (ho : c.open_root_ok = false) :
    main_loop cfg fuel (c :: rest) w0
      = some (EXIT_FAILURE,
          { outdir := w1.outdir,
            trace := w1.trace ++ [Event.drain 0] ++ [Event.open_root false] }) := by
  rw [main_loop, hf]
  simp only [hwait, and_true, if_true, ho, Bool.false_eq_true, not_false_eq_true]
  rfl

/-- In wait mode, a drain cycle that returns 0 followed by a `select` that returns -1 ends
the run with `EXIT_FAILURE`. -/
theorem main_loop_select_fails (cfg : Config) (fuel : Nat) (hwait : cfg.opt_wait = true)
    (c : Cycle) (rest : List Cycle) (w0 w1 : World)
    (hf : find_and_process_dumps cfg fuel c.listing w0 = some (0, w1))
    (ho : c.open_root_ok = true) (hs : c.select_rc = -1) :
    main_loop cfg fuel (c :: rest) w0
      = some (EXIT_FAILURE,
          { outdir := w1.outdir,
            trace := w1.trace ++ [Event.drain 0]
              ++ [Event.open_root true, Event.select (-1)] }) := by
  rw [main_loop, hf]
  simp only [hwait, and_true, if_true, ho, not_true_eq_false, if_false, hs]
  rfl

/-- The set-up of `main`: when the dump root is accessible and the output directory is
accessible or can be created, `main` runs the loop at `start`; otherwise it exits with
`EXIT_FAILURE`. -/
theorem main_setup (cfg : Config) (s : Setup) (fuel : Nat) (cycles : List Cycle) (w : World) :
    main cfg s fuel cycles w
      = if s.access_sysfs_ok = true ∧ (s.access_out = AccessOut.ok
            ∨ (s.access_out = AccessOut.enoent ∧ s.mkdir_ok = true))
        then main_loop cfg fuel cycles w else some (EXIT_FAILURE, w) := by
  unfold main
  by_cases h1 : s.access_sysfs_ok = true
  · rw [if_neg (by simpa using h1)]
    cases h2 : s.access_out with
    | ok => simp [h1]
    | enoent =>
      by_cases h3 : s.mkdir_ok = true
      · simp [h1, h3]
      · simp only [h1, h3, true_and, and_false, or_false, if_false, reduceCtorEq, false_or]
        simp [h3]
        rfl
    | other =>
      simp only [h1, reduceCtorEq, false_and, or_false, and_false, if_false]
      rfl
  · rw [if_pos (by simpa using h1)]
    simp only [h1, false_and, if_false]
    rfl

/-- C9 (amended): with the wait toggle enabled, a drain cycle that returns a positive count
ends the run with exit status 0 without opening the dump root or waiting; a negative drain
status, a failed `open` of the dump root and a failed `select` end it with `EXIT_FAILURE`,
as does a failed set-up; after every drain cycle that returns 0 `main` opens the dump root,
blocks in `select` and, when both succeed, drains again. So a run that exits has status 0
exactly when its last drain cycle returned a positive count, and `EXIT_FAILURE`
otherwise. -/
theorem wait_mode_exit (cfg : Config) (s : Setup) (fuel : Nat) (cycles : List Cycle)
    (w w' : World) (status : Int)
    (hwait : cfg.opt_wait = true) (hw : w.trace = [])
    (hrun : main cfg s fuel cycles w = some (status, w')) :
    (status = 0 ∨ status = EXIT_FAILURE)
    ∧ (status = 0 ↔ ∃ rc, 0 < rc ∧ w'.trace.getLast? = some (Event.drain rc))
    ∧ (∀ (c : Cycle) (rest : List Cycle) (w0 w1 : World) (rc : Int),
        find_and_process_dumps cfg fuel c.listing w0 = some (rc, w1) →
        (0 < rc → main_loop cfg fuel (c :: rest) w0
          = some (0, { outdir := w1.outdir, trace := w1.trace ++ [Event.drain rc] }))
        ∧ (rc < 0 → main_loop cfg fuel (c :: rest) w0
          = some (EXIT_FAILURE,
              { outdir := w1.outdir, trace := w1.trace ++ [Event.drain rc] }))
        ∧ (rc = 0 → c.open_root_ok = false → main_loop cfg fuel (c :: rest) w0
          = some (EXIT_FAILURE,
              { outdir := w1.outdir,
                trace := w1.trace ++ [Event.drain 0] ++ [Event.open_root false] }))
        ∧ (rc = 0 → c.open_root_ok = true → c.select_rc = -1 →
          main_loop cfg fuel (c :: rest) w0
            = some (EXIT_FAILURE,
                { outdir := w1.outdir,
                  trace := w1.trace ++ [Event.drain 0]
                    ++ [Event.open_root true, Event.select (-1)] }))
        ∧ (rc = 0 → c.open_root_ok = true → c.select_rc ≠ -1 →
          main_loop cfg fuel (c :: rest) w0
            = main_loop cfg fuel rest
                { outdir := w1.outdir,
                  trace := w1.trace ++ [Event.drain 0]
                    ++ [Event.open_root true, Event.select c.select_rc] }))
    ∧ main cfg s fuel cycles w
        = (if s.access_sysfs_ok = true ∧ (s.access_out = AccessOut.ok
              ∨ (s.access_out = AccessOut.enoent ∧ s.mkdir_ok = true))
          then main_loop cfg fuel cycles w else some (EXIT_FAILURE, w)) := by
  have hsetup := main_setup cfg s fuel cycles w
  have key : (status = 0 ∨ status = EXIT_FAILURE)
      ∧ (status = 0 ↔ ∃ rc, 0 < rc ∧ w'.trace.getLast? = some (Event.drain rc)) := by
    rw [hsetup] at hrun
    split at hrun
    · exact main_loop_exit cfg fuel hwait cycles w status w' hrun
    · simp only [Option.some.injEq, Prod.mk.injEq] at hrun
      obtain ⟨h1, h2⟩ := hrun
      subst h1 h2
      refine ⟨Or.inr rfl, ?_⟩
      constructor
      · intro h; exact absurd h (by decide)
      · rintro ⟨rc, _, h⟩
        rw [hw] at h
        simp at h
  refine ⟨key.1, key.2, ?_, hsetup⟩
  intro c rest w0 w1 rc hf
  refine ⟨?_, ?_, ?_, ?_, ?_⟩
  · intro hpos
    rw [main_loop_nonzero cfg fuel c rest w0 w1 rc hf (by omega), if_neg (by omega)]
  · intro hneg
    rw [main_loop_nonzero cfg fuel c rest w0 w1 rc hf (by omega), if_pos hneg]
  · intro h0 ho
    subst h0
    exact main_loop_open_fails cfg fuel hwait c rest w0 w1 hf ho
  · intro h0 ho hs
    subst h0
    exact main_loop_select_fails cfg fuel hwait c rest w0 w1 hf ho hs
  · intro h0 ho hs
    subst h0
    exact main_loop_wait_again cfg fuel hwait c rest w0 w1 hf ho hs

/-- A run in wait mode: the first drain cycle finds nothing, `main` opens the dump root and
waits; woken up, the second drain cycle extracts the dump of 0x1, returns 1, and `main`
exits with status 0 at once. -/
theorem wait_mode_exit_witness :
    main cfg_wait setup_ok 1
        [{ listing := some [], open_root_ok := true, select_rc := 1 },
         { listing := some [pending (ascii "0x1") (platfrm 1) 1],
           open_root_ok := true, select_rc := 1 }] world0
      = some (0,
          { outdir := [⟨platfrm 1, 1⟩],
            trace := [Event.drain 0, Event.open_root true, Event.select 1,
              Event.process (ascii "0x1") 0, Event.ack_open (ascii "0x1") true,
              Event.ack_write (ascii "0x1") true, Event.drain 1] })
    ∧ ((0 : Int) = 0 ∨ (0 : Int) = EXIT_FAILURE)
    ∧ ((0 : Int) = 0 ↔ ∃ rc, 0 < rc ∧
        ([Event.drain 0, Event.open_root true, Event.select 1,
              Event.process (ascii "0x1") 0, Event.ack_open (ascii "0x1") true,
              Event.ack_write (ascii "0x1") true, Event.drain 1] : List Event).getLast?
          = some (Event.drain rc))
    ∧ main_loop cfg_wait 1
        [{ listing := some [pending (ascii "0x1") (platfrm 1) 1],
           open_root_ok := true, select_rc := 1 }] world0
      = some (0,
          { outdir := [⟨platfrm 1, 1⟩],
            trace := [Event.process (ascii "0x1") 0, Event.ack_open (ascii "0x1") true,
              Event.ack_write (ascii "0x1") true] ++ [Event.drain 1] }) :=
  have h := wait_mode_exit cfg_wait setup_ok 1
    [{ listing := some [], open_root_ok := true, select_rc := 1 },
     { listing := some [pending (ascii "0x1") (platfrm 1) 1],
       open_root_ok := true, select_rc := 1 }] world0
    { outdir := [⟨platfrm 1, 1⟩],
      trace := [Event.drain 0, Event.open_root true, Event.select 1,
        Event.process (ascii "0x1") 0, Event.ack_open (ascii "0x1") true,
        Event.ack_write (ascii "0x1") true, Event.drain 1] } 0 rfl rfl (by decide)
  ⟨by decide, h.1, h.2.1,
    (h.2.2.1 (Cycle.mk (some [pending (ascii "0x1") (platfrm 1) 1]) true 1) [] world0
      (World.mk [⟨platfrm 1, 1⟩]
        [Event.process (ascii "0x1") 0, Event.ack_open (ascii "0x1") true,
          Event.ack_write (ascii "0x1") true]) 1 (by decide)).1 (by decide)⟩

/-! ## Theorems: acknowledgment of the scanned dumps -/

end OpalDump
